import Mathlib

/-!
Shallow embedding of the quran-reader repository's text-processing core.

The embedded code is the digit-run detection and ornate-bracket wrapping
routine of `src/center_docx_text.py` (function `center_docx_text`, the
per-paragraph run rewriting) and its duplicate in `src/create_pdf.py`
(function `create_quran_pdf`, the per-line `processed_line` scan), together
with the run/paragraph data model those scripts manipulate through
python-docx.

Strings are embedded as `List Char`; a docx run is a record of its text and
the formatting attributes the scripts read and write (`bold`, `italic`,
`underline`, `color`, `size`, `name`, `font.rtl`).  Python's `str.isdigit`
and `str.isspace` are modelled by explicit Unicode range tables.

The recursive scans are stated over an abstract character class `p` (the
`...With` definitions) and instantiated with the concrete `pyIsDigit`
(respectively `is_arabic_numeral`), exactly as the scripts instantiate
their scans with `str.isdigit`.
-/

namespace QuranReader

/-- U+FD3E ARABIC ORNATE LEFT PARENTHESIS (the closing glyph in the emitted
text of both scripts). -/
def ornateFD3E : Char := Char.ofNat 0xFD3E

/-- U+FD3F ARABIC ORNATE RIGHT PARENTHESIS (the first character of the
f-string literal on line 96 of `center_docx_text.py` and line 197 of
`create_pdf.py`; verified against the UTF-8 bytes `ef b4 bf`). -/
def ornateFD3F : Char := Char.ofNat 0xFD3F

/-- Closed interval test on code points. -/
def inRange (lo hi n : Nat) : Bool := decide (lo ≤ n) && decide (n ≤ hi)

/-- The Unicode general category Nd (decimal digit) as a range table
(Unicode 15.0).  These are the "Unicode decimal digit" characters in the
sense of the spec. -/
def isUnicodeDecimalDigit (c : Char) : Bool :=
  let n := c.toNat
  inRange 0x30 0x39 n || inRange 0x660 0x669 n || inRange 0x6F0 0x6F9 n ||
  inRange 0x7C0 0x7C9 n || inRange 0x966 0x96F n || inRange 0x9E6 0x9EF n ||
  inRange 0xA66 0xA6F n || inRange 0xAE6 0xAEF n || inRange 0xB66 0xB6F n ||
  inRange 0xBE6 0xBEF n || inRange 0xC66 0xC6F n || inRange 0xCE6 0xCEF n ||
  inRange 0xD66 0xD6F n || inRange 0xDE6 0xDEF n || inRange 0xE50 0xE59 n ||
  inRange 0xED0 0xED9 n || inRange 0xF20 0xF29 n || inRange 0x1040 0x1049 n ||
  inRange 0x1090 0x1099 n || inRange 0x17E0 0x17E9 n || inRange 0x1810 0x1819 n ||
  inRange 0x1946 0x194F n || inRange 0x19D0 0x19D9 n || inRange 0x1A80 0x1A89 n ||
  inRange 0x1A90 0x1A99 n || inRange 0x1B50 0x1B59 n || inRange 0x1BB0 0x1BB9 n ||
  inRange 0x1C40 0x1C49 n || inRange 0x1C50 0x1C59 n || inRange 0xA620 0xA629 n ||
  inRange 0xA8D0 0xA8D9 n || inRange 0xA900 0xA909 n || inRange 0xA9D0 0xA9D9 n ||
  inRange 0xA9F0 0xA9F9 n || inRange 0xAA50 0xAA59 n || inRange 0xABF0 0xABF9 n ||
  inRange 0xFF10 0xFF19 n || inRange 0x104A0 0x104A9 n || inRange 0x10D30 0x10D39 n ||
  inRange 0x11066 0x1106F n || inRange 0x110F0 0x110F9 n || inRange 0x11136 0x1113F n ||
  inRange 0x111D0 0x111D9 n || inRange 0x112F0 0x112F9 n || inRange 0x11450 0x11459 n ||
  inRange 0x114D0 0x114D9 n || inRange 0x11650 0x11659 n || inRange 0x116C0 0x116C9 n ||
  inRange 0x11730 0x11739 n || inRange 0x118E0 0x118E9 n || inRange 0x11950 0x11959 n ||
  inRange 0x11C50 0x11C59 n || inRange 0x11D50 0x11D59 n || inRange 0x11DA0 0x11DA9 n ||
  inRange 0x16A60 0x16A69 n || inRange 0x16AC0 0x16AC9 n || inRange 0x16B50 0x16B59 n ||
  inRange 0x1D7CE 0x1D7FF n || inRange 0x1E140 0x1E149 n || inRange 0x1E2F0 0x1E2F9 n ||
  inRange 0x1E4F0 0x1E4F9 n || inRange 0x1E950 0x1E959 n || inRange 0x1FBF0 0x1FBF9 n

/-- Characters with Unicode property Numeric_Type=Digit that are not of
category Nd: superscript and subscript digits, circled digits, Ethiopic and
Kharosthi digits, etc. (Unicode 15.0 range table). -/
def isDigitTypedNumeral (c : Char) : Bool :=
  let n := c.toNat
  inRange 0xB2 0xB3 n || inRange 0xB9 0xB9 n || inRange 0x1369 0x1371 n ||
  inRange 0x19DA 0x19DA n || inRange 0x2070 0x2070 n || inRange 0x2074 0x2079 n ||
  inRange 0x2080 0x2089 n || inRange 0x2460 0x2468 n || inRange 0x2474 0x247C n ||
  inRange 0x2488 0x2490 n || inRange 0x24EA 0x24EA n || inRange 0x24F5 0x24FD n ||
  inRange 0x24FF 0x24FF n || inRange 0x2776 0x277E n || inRange 0x2780 0x2788 n ||
  inRange 0x278A 0x2792 n || inRange 0x10A40 0x10A43 n || inRange 0x10E60 0x10E68 n ||
  inRange 0x1F100 0x1F10A n

/-- Models Python's `str.isdigit` on a single character: true exactly when
the character's Unicode Numeric_Type is Decimal (category Nd) or Digit.
Both scripts classify characters with this predicate (`text[i].isdigit()`
in `center_docx_text.py`, `is_arabic_numeral` in `create_pdf.py`). -/
def pyIsDigit (c : Char) : Bool :=
  isUnicodeDecimalDigit c || isDigitTypedNumeral c

/-- Models Python's notion of whitespace used by `str.strip()` /
`str.isspace()` (Unicode whitespace plus the ASCII separator controls). -/
def pyIsSpace (c : Char) : Bool :=
  let n := c.toNat
  inRange 0x9 0xD n || inRange 0x1C 0x20 n || inRange 0x85 0x85 n ||
  inRange 0xA0 0xA0 n || inRange 0x1680 0x1680 n || inRange 0x2000 0x200A n ||
  inRange 0x2028 0x2029 n || inRange 0x202F 0x202F n || inRange 0x205F 0x205F n ||
  inRange 0x3000 0x3000 n

/-- Paragraph alignment values of `WD_PARAGRAPH_ALIGNMENT` that the scripts
use. -/
inductive Alignment where
  | left
  | center
  | right
deriving Repr, DecidableEq

/-- A docx run as the scripts see it: its text plus the formatting
attributes read on lines 67-76 and written on lines 97-125 of
`center_docx_text.py`.  Attributes are tri-state (`none` = inherited), as in
python-docx; `color` is an RGB triple; `rtl` is `run.font.rtl`. -/
structure Run where
  text : List Char
  bold : Option Bool
  italic : Option Bool
  underline : Option Bool
  color : Option (Nat × Nat × Nat)
  size : Option Nat
  name : Option String
  rtl : Option Bool
deriving Repr, DecidableEq

/-- The `run_data` dictionary captured on lines 66-76 of
`center_docx_text.py`: the run's text and its six formatting attributes
(`rtl` is not captured). -/
structure RunData where
  text : List Char
  bold : Option Bool
  italic : Option Bool
  underline : Option Bool
  color : Option (Nat × Nat × Nat)
  size : Option Nat
  name : Option String
deriving Repr, DecidableEq

/-- Lines 68-76: capture a run's text and formatting into `run_data`. -/
def captureRun (r : Run) : RunData :=
  { text := r.text, bold := r.bold, italic := r.italic,
    underline := r.underline, color := r.color, size := r.size,
    name := r.name }

/-- A run freshly created by `paragraph.add_run(t)`: every formatting
attribute is unset. -/
def freshRun (t : List Char) : Run :=
  { text := t, bold := none, italic := none, underline := none,
    color := none, size := none, name := none, rtl := none }

/-- Lines 98-109 (and identically 113-125) of `center_docx_text.py`: apply
the captured formatting to a new run.  `bold`, `italic` and `underline` are
assigned unconditionally; `color`, `size` and `name` only when the captured
value is truthy in Python (`if run_data['color']:` etc.) - an `RGBColor` is
a non-empty tuple and hence truthy whenever present, while a zero `size`
(an int subclass) and an empty `name` (a str) are falsy and are skipped.
Finally `new_run.font.rtl = True`. -/
def applyFormatting (d : RunData) (r : Run) : Run :=
  { r with
    bold := d.bold
    italic := d.italic
    underline := d.underline
    color := match d.color with
      | some v => some v
      | none => r.color
    size := match d.size with
      | some v => if v == 0 then r.size else some v
      | none => r.size
    name := match d.name with
      | some v => if v == "" then r.name else some v
      | none => r.name
    rtl := some true }

/-- Line 61 / 109 / 125: `run.font.rtl = True`. -/
def setRtl (r : Run) : Run := { r with rtl := some true }

/-- The text emitted for one collected digit run: the f-string of line 96,
whose literal characters are, in order, U+FD3F, the digits, U+FD3E
(byte-verified against the source file). -/
def bracketText (digits : List Char) : List Char :=
  ornateFD3F :: digits ++ [ornateFD3E]

theorem length_dropWhile_le (p : Char → Bool) :
    ∀ l : List Char, (l.dropWhile p).length ≤ l.length := by
  intro l
  induction l with
  | nil => simp [List.dropWhile]
  | cons c rest ih =>
    by_cases h : p c
    · simp only [List.dropWhile_cons_of_pos h, List.length_cons]
      exact Nat.le_succ_of_le ih
    · simp [List.dropWhile_cons_of_neg h]

/-- The scan of lines 84-127 of `center_docx_text.py`, one source run at a
time, over an abstract character class `p`: starting from the captured
`run_data` `d`, walk the run's text with a cursor; a character of class `p`
starts a digit run which is collected maximally
(`while i < len(text) and text[i].isdigit(): i += 1`) and emitted as one
bracketed run; any other character is emitted as a single-character run;
both carry the captured formatting and `rtl = True`. -/
def scanRunWith (p : Char → Bool) (d : RunData) : List Char → List Run
  | [] => []
  | c :: rest =>
    if p c then
      applyFormatting d (freshRun (bracketText (c :: rest.takeWhile p)))
        :: scanRunWith p d (rest.dropWhile p)
    else
      applyFormatting d (freshRun [c]) :: scanRunWith p d rest
termination_by l => l.length
decreasing_by
  · simp only [List.length_cons]
    exact Nat.lt_succ_of_le (length_dropWhile_le p rest)
  · simp

/-- The per-run scan of `center_docx_text.py`, with the character class the
script actually uses: `str.isdigit`. -/
def scanRun (d : RunData) : List Char → List Run :=
  scanRunWith pyIsDigit d

/-- A docx paragraph as the scripts see it: its ordered runs and its
alignment. -/
structure Paragraph where
  runs : List Run
  alignment : Option Alignment
deriving Repr, DecidableEq

/-- `paragraph.text`: the concatenation of the texts of the paragraph's
runs. -/
def paraText (p : Paragraph) : List Char :=
  (p.runs.map Run.text).flatten

/-- Lines 49-127 of `center_docx_text.py`, restricted to one paragraph (the
body of the `for paragraph in doc.paragraphs:` loop).  A paragraph whose
text strips to the empty string is left untouched.  Otherwise the alignment
is set to CENTER and every run gets `rtl = True`; if, additionally, some
character of the paragraph text is a digit, the runs are captured, the
paragraph is cleared and each captured run is re-emitted through `scanRun`. -/
def center_docx_paragraph (p : Paragraph) : Paragraph :=
  if (paraText p).all pyIsSpace then p
  else if (paraText p).any pyIsDigit then
    { runs := (((p.runs.map setRtl).map captureRun).map
        (fun d => scanRun d d.text)).flatten,
      alignment := some Alignment.center }
  else
    { runs := p.runs.map setRtl, alignment := some Alignment.center }

/-- The document-level loop of `center_docx_text` (line 49): each paragraph
is processed independently. -/
def center_docx_text (paras : List Paragraph) : List Paragraph :=
  paras.map center_docx_paragraph

/-- `is_arabic_numeral` of `create_pdf.py` (lines 45-47): `char.isdigit()`. -/
def is_arabic_numeral (c : Char) : Bool := pyIsDigit c

/-- The string appended to `processed_line` for one collected number on line
197 of `create_pdf.py`: a space, U+FD3F, the digits, U+FD3E, a space. -/
def pdfNumberChunk (digits : List Char) : List Char :=
  ' ' :: bracketText digits ++ [' ']

/-- The `processed_line` scan of `create_quran_pdf` (lines 185-200) over an
abstract character class: walk the line with a cursor; a digit starts a
maximally collected number emitted as a space-padded bracketed chunk; any
other character is appended as is. -/
def create_pdf_processed_lineWith (p : Char → Bool) : List Char → List Char
  | [] => []
  | c :: rest =>
    if p c then
      pdfNumberChunk (c :: rest.takeWhile p)
        ++ create_pdf_processed_lineWith p (rest.dropWhile p)
    else
      c :: create_pdf_processed_lineWith p rest
termination_by l => l.length
decreasing_by
  · simp only [List.length_cons]
    exact Nat.lt_succ_of_le (length_dropWhile_le p rest)
  · simp

/-- The `processed_line` scan with the character class the script actually
uses: `is_arabic_numeral`. -/
def create_pdf_processed_line : List Char → List Char :=
  create_pdf_processed_lineWith is_arabic_numeral

/-- The full per-line `while` loop of `create_quran_pdf` (lines 186-204)
with its real indentation, over an abstract character class: the state is
the remaining input, the `processed_line` accumulator, and the value last
assigned to `bidi_text` (`none` = never assigned).  The assignments of
lines 203-204 (`reshaped_text = arabic_reshaper.reshape(processed_line)`
and `bidi_text = get_display(reshaped_text)`) are indented at the level of
the `if`, i.e. they execute at the end of every iteration of the `while`
body, on the `processed_line` built so far.  The external reshape+bidi
collaborator is abstracted as `shape`. -/
def create_pdf_line_loopWith (p : Char → Bool) (shape : List Char → List Char) :
    List Char → List Char → Option (List Char) → List Char × Option (List Char)
  | [], acc, bidi => (acc, bidi)
  | c :: rest, acc, _ =>
    if p c then
      create_pdf_line_loopWith p shape (rest.dropWhile p)
        (acc ++ pdfNumberChunk (c :: rest.takeWhile p))
        (some (shape (acc ++ pdfNumberChunk (c :: rest.takeWhile p))))
    else
      create_pdf_line_loopWith p shape rest (acc ++ [c]) (some (shape (acc ++ [c])))
termination_by l _ _ => l.length
decreasing_by
  · simp only [List.length_cons]
    exact Nat.lt_succ_of_le (length_dropWhile_le p rest)
  · simp

/-- The per-line loop with the script's own character class. -/
def create_pdf_line_loop (shape : List Char → List Char) :
    List Char → List Char → Option (List Char) → List Char × Option (List Char) :=
  create_pdf_line_loopWith is_arabic_numeral shape

/-- What line 207 (`elements.append(Paragraph(bidi_text, quran_style))`)
reads after the loop: the final value of `bidi_text` for the line, starting
from `processed_line = ""` and `bidi_text` unbound.  `none` models the
`UnboundLocalError` that would be raised there if `bidi_text` were never
assigned. -/
def create_pdf_line_bidi (shape : List Char → List Char) (line : List Char) :
    Option (List Char) :=
  (create_pdf_line_loop shape line [] none).2

/-- Python `str.strip()`: remove leading and trailing whitespace. -/
def pyStrip (l : List Char) : List Char :=
  ((l.dropWhile pyIsSpace).reverse.dropWhile pyIsSpace).reverse

/-- `extract_text_from_docx` of `create_pdf.py` (lines 49-58): keep the
stripped text of each paragraph whose stripped text is non-empty. -/
def extract_text_from_docx (paras : List Paragraph) : List (List Char) :=
  paras.filterMap (fun p =>
    if (pyStrip (paraText p)).isEmpty then none else some (pyStrip (paraText p)))

/-! ### The maximal-digit-run segmentation

Both scans decompose their input into maximal runs of `pyIsDigit`
characters and the remaining single characters.  `digitSegs` computes that
decomposition by a structural right fold; the lemmas below prove that each
scan is the corresponding rendering of it.  Being structurally recursive,
`digitSegs` also lets concrete instances be settled by `decide`. -/

/-- One step of the segmentation: prepend a character to the segmentation
of the rest of the string, merging a `p`-character into an adjacent leading
digit segment. -/
def segStepWith (p : Char → Bool) (c : Char) (acc : List (Bool × List Char)) :
    List (Bool × List Char) :=
  if p c then
    match acc with
    | (true, ds) :: tl => (true, c :: ds) :: tl
    | _ => (true, [c]) :: acc
  else
    (false, [c]) :: acc

/-- The decomposition of a string into its maximal runs of `p`-characters
(flagged `true`) and its remaining single characters (flagged `false`), in
order. -/
def digitSegsWith (p : Char → Bool) (l : List Char) : List (Bool × List Char) :=
  l.foldr (segStepWith p) []

/-- The maximal-digit-run decomposition of a string. -/
def digitSegs (l : List Char) : List (Bool × List Char) :=
  digitSegsWith pyIsDigit l

/-- The text `center_docx_text` emits for one segment. -/
def segText (s : Bool × List Char) : List Char :=
  if s.1 then bracketText s.2 else s.2

/-- The text `create_quran_pdf` appends to `processed_line` for one
segment. -/
def segTextPdf (s : Bool × List Char) : List Char :=
  if s.1 then pdfNumberChunk s.2 else s.2

/-- The run `scanRun` emits for one segment. -/
def mkScanRun (d : RunData) (s : Bool × List Char) : Run :=
  applyFormatting d (freshRun (segText s))

theorem digitSegsWith_cons_digit (p : Char → Bool) :
    ∀ (rest : List Char) (c : Char), p c = true →
      digitSegsWith p (c :: rest)
        = (true, c :: rest.takeWhile p)
            :: digitSegsWith p (rest.dropWhile p) := by
  intro rest
  induction rest with
  | nil => intro c h; simp [digitSegsWith, segStepWith, h]
  | cons c2 rest2 ih =>
    intro c h
    have e1 : digitSegsWith p (c :: c2 :: rest2)
        = segStepWith p c (digitSegsWith p (c2 :: rest2)) := rfl
    by_cases h2 : p c2
    · rw [e1, ih c2 h2]
      simp [segStepWith, h, List.takeWhile_cons_of_pos h2,
        List.dropWhile_cons_of_pos h2]
    · have e2 : digitSegsWith p (c2 :: rest2)
          = (false, [c2]) :: digitSegsWith p rest2 := by
        simp [digitSegsWith, segStepWith, h2]
      rw [e1, e2]
      simp [segStepWith, h, List.takeWhile_cons_of_neg h2,
        List.dropWhile_cons_of_neg h2, e2]

theorem digitSegsWith_cons_nondigit (p : Char → Bool) (rest : List Char)
    (c : Char) (h : p c = false) :
    digitSegsWith p (c :: rest) = (false, [c]) :: digitSegsWith p rest := by
  simp [digitSegsWith, segStepWith, h]

theorem scanRunWith_cons_digit (p : Char → Bool) (d : RunData) (c : Char)
    (rest : List Char) (h : p c = true) :
    scanRunWith p d (c :: rest)
      = applyFormatting d (freshRun (bracketText (c :: rest.takeWhile p)))
        :: scanRunWith p d (rest.dropWhile p) := by
  rw [scanRunWith]
  simp [h]

theorem scanRunWith_cons_nondigit (p : Char → Bool) (d : RunData) (c : Char)
    (rest : List Char) (h : p c = false) :
    scanRunWith p d (c :: rest)
      = applyFormatting d (freshRun [c]) :: scanRunWith p d rest := by
  rw [scanRunWith]
  simp [h]

theorem scanRunWith_nil (p : Char → Bool) (d : RunData) :
    scanRunWith p d [] = [] := by
  rw [scanRunWith]

theorem scanRunWith_eq_aux (p : Char → Bool) (d : RunData) :
    ∀ (n : Nat) (l : List Char), l.length ≤ n →
      scanRunWith p d l = (digitSegsWith p l).map (mkScanRun d) := by
  intro n
  induction n with
  | zero =>
    intro l hl
    have : l = [] := List.length_eq_zero.mp (Nat.le_zero.mp hl)
    subst this
    rw [scanRunWith_nil]
    rfl
  | succ n ih =>
    intro l hl
    match l with
    | [] => rw [scanRunWith_nil]; rfl
    | c :: rest =>
      by_cases h : p c
      · rw [scanRunWith_cons_digit p d c rest h]
        rw [digitSegsWith_cons_digit p rest c h]
        rw [ih (rest.dropWhile p)
            (Nat.le_trans (length_dropWhile_le p rest)
              (Nat.le_of_succ_le_succ hl))]
        simp [mkScanRun, segText]
      · rw [scanRunWith_cons_nondigit p d c rest (by simp [h])]
        rw [digitSegsWith_cons_nondigit p rest c (by simp [h])]
        rw [ih rest (Nat.le_of_succ_le_succ hl)]
        simp [mkScanRun, segText, h]

/-- Closed form of `scanRun`: it renders the maximal-digit-run
segmentation of the run's text, one emitted run per segment. -/
theorem scanRun_eq_segs (d : RunData) (l : List Char) :
    scanRun d l = (digitSegs l).map (mkScanRun d) :=
  scanRunWith_eq_aux pyIsDigit d l.length l (Nat.le_refl _)

theorem create_pdf_processed_lineWith_cons_digit (p : Char → Bool) (c : Char)
    (rest : List Char) (h : p c = true) :
    create_pdf_processed_lineWith p (c :: rest)
      = pdfNumberChunk (c :: rest.takeWhile p)
        ++ create_pdf_processed_lineWith p (rest.dropWhile p) := by
  rw [create_pdf_processed_lineWith]
  simp [h]

theorem create_pdf_processed_lineWith_cons_nondigit (p : Char → Bool) (c : Char)
    (rest : List Char) (h : p c = false) :
    create_pdf_processed_lineWith p (c :: rest)
      = c :: create_pdf_processed_lineWith p rest := by
  rw [create_pdf_processed_lineWith]
  simp [h]

theorem create_pdf_processed_lineWith_nil (p : Char → Bool) :
    create_pdf_processed_lineWith p [] = [] := by
  rw [create_pdf_processed_lineWith]

theorem create_pdf_processed_lineWith_eq_aux (p : Char → Bool) :
    ∀ (n : Nat) (l : List Char), l.length ≤ n →
      create_pdf_processed_lineWith p l
        = ((digitSegsWith p l).map segTextPdf).flatten := by
  intro n
  induction n with
  | zero =>
    intro l hl
    have : l = [] := List.length_eq_zero.mp (Nat.le_zero.mp hl)
    subst this
    rw [create_pdf_processed_lineWith_nil]
    rfl
  | succ n ih =>
    intro l hl
    match l with
    | [] => rw [create_pdf_processed_lineWith_nil]; rfl
    | c :: rest =>
      by_cases h : p c
      · rw [create_pdf_processed_lineWith_cons_digit p c rest h]
        rw [digitSegsWith_cons_digit p rest c h]
        rw [ih (rest.dropWhile p)
            (Nat.le_trans (length_dropWhile_le p rest)
              (Nat.le_of_succ_le_succ hl))]
        simp [segTextPdf]
      · rw [create_pdf_processed_lineWith_cons_nondigit p c rest (by simp [h])]
        rw [digitSegsWith_cons_nondigit p rest c (by simp [h])]
        rw [ih rest (Nat.le_of_succ_le_succ hl)]
        simp [segTextPdf, h]

/-- Closed form of the `processed_line` scan of `create_quran_pdf`. -/
theorem create_pdf_processed_line_eq (l : List Char) :
    create_pdf_processed_line l = ((digitSegs l).map segTextPdf).flatten :=
  create_pdf_processed_lineWith_eq_aux is_arabic_numeral l.length l (Nat.le_refl _)

/-- Structural twin of `center_docx_paragraph` (the recursive `scanRun`
replaced by its proven closed form), used to evaluate concrete instances. -/
def center_docx_paragraphC (p : Paragraph) : Paragraph :=
  if (paraText p).all pyIsSpace then p
  else if (paraText p).any pyIsDigit then
    { runs := (((p.runs.map setRtl).map captureRun).map
        (fun d => (digitSegs d.text).map (mkScanRun d))).flatten,
      alignment := some Alignment.center }
  else
    { runs := p.runs.map setRtl, alignment := some Alignment.center }

theorem center_docx_paragraph_eq_C (p : Paragraph) :
    center_docx_paragraph p = center_docx_paragraphC p := by
  unfold center_docx_paragraph center_docx_paragraphC
  simp only [scanRun_eq_segs]

theorem length_takeWhile_le (p : Char → Bool) :
    ∀ l : List Char, (l.takeWhile p).length ≤ l.length := by
  intro l
  induction l with
  | nil => simp [List.takeWhile]
  | cons c rest ih =>
    by_cases h : p c
    · simp only [List.takeWhile_cons_of_pos h, List.length_cons]
      exact Nat.succ_le_succ ih
    · simp [List.takeWhile_cons_of_neg h]

theorem segStepWith_ne_nil (p : Char → Bool) (c : Char)
    (acc : List (Bool × List Char)) : segStepWith p c acc ≠ [] := by
  by_cases h : p c
  · match acc with
    | [] => simp [segStepWith, h]
    | (true, ds) :: tl => simp [segStepWith, h]
    | (false, ds) :: tl => simp [segStepWith, h]
  · simp [segStepWith, h]

theorem digitSegsWith_cons_ne_nil (p : Char → Bool) (c : Char)
    (rest : List Char) : digitSegsWith p (c :: rest) ≠ [] :=
  segStepWith_ne_nil p c (digitSegsWith p rest)

theorem segStepWith_snd_flatten (p : Char → Bool) (c : Char)
    (acc : List (Bool × List Char)) :
    ((segStepWith p c acc).map Prod.snd).flatten
      = c :: (acc.map Prod.snd).flatten := by
  by_cases h : p c
  · match acc with
    | [] => simp [segStepWith, h]
    | (true, ds) :: tl => simp [segStepWith, h]
    | (false, ds) :: tl => simp [segStepWith, h]
  · simp [segStepWith, h]

/-- The segmentation loses no character: concatenating its segments
reproduces the input. -/
theorem digitSegsWith_snd_flatten (p : Char → Bool) :
    ∀ l : List Char, ((digitSegsWith p l).map Prod.snd).flatten = l := by
  intro l
  induction l with
  | nil => rfl
  | cons c rest ih =>
    have e1 : digitSegsWith p (c :: rest) = segStepWith p c (digitSegsWith p rest) := rfl
    rw [e1, segStepWith_snd_flatten, ih]

/-- Well-formedness of one segment: a `true` segment is a non-empty run of
`p`-characters, a `false` segment is one non-`p` character. -/
def SegWf (p : Char → Bool) (s : Bool × List Char) : Prop :=
  (s.1 = true → s.2 ≠ [] ∧ s.2.all p = true)
  ∧ (s.1 = false → ∃ c, s.2 = [c] ∧ p c = false)

theorem digitSegsWith_wf (p : Char → Bool) :
    ∀ (l : List Char) (s : Bool × List Char), s ∈ digitSegsWith p l → SegWf p s := by
  intro l
  induction l with
  | nil => intro s hs; simp [digitSegsWith] at hs
  | cons c rest ih =>
    intro s hs
    have e1 : digitSegsWith p (c :: rest) = segStepWith p c (digitSegsWith p rest) := rfl
    rw [e1] at hs
    by_cases h : p c
    · match e : digitSegsWith p rest with
      | (true, ds) :: tl =>
        rw [e] at hs
        simp only [segStepWith, h, if_true] at hs
        rcases List.mem_cons.mp hs with hs1 | hs2
        · subst hs1
          have hdwf : SegWf p (true, ds) := ih (true, ds) (e ▸ List.mem_cons_self _ _)
          refine ⟨fun _ => ⟨by simp, ?_⟩, by simp⟩
          have := (hdwf.1 rfl).2
          simp only [List.all_cons, Bool.and_eq_true, h, true_and]
          simpa using this
        · exact ih s (e ▸ List.mem_cons_of_mem _ hs2)
      | [] =>
        rw [e] at hs
        simp only [segStepWith, h, if_true] at hs
        rcases List.mem_cons.mp hs with hs1 | hs2
        · subst hs1
          exact ⟨fun _ => ⟨by simp, by simp [h]⟩, by simp⟩
        · simp at hs2
      | (false, ds) :: tl =>
        rw [e] at hs
        simp only [segStepWith, h, if_true] at hs
        rcases List.mem_cons.mp hs with hs1 | hs2
        · subst hs1
          exact ⟨fun _ => ⟨by simp, by simp [h]⟩, by simp⟩
        · exact ih s (e ▸ hs2)
    · simp only [segStepWith, h, if_false, Bool.false_eq_true] at hs
      rcases List.mem_cons.mp hs with hs1 | hs2
      · subst hs1
        refine ⟨by simp, fun _ => ⟨c, rfl, by simpa using h⟩⟩
      · exact ih s hs2

theorem segStepWith_length_le (p : Char → Bool) (c : Char)
    (acc : List (Bool × List Char)) :
    (segStepWith p c acc).length ≤ acc.length + 1 := by
  by_cases h : p c
  · match acc with
    | [] => simp [segStepWith, h]
    | (true, ds) :: tl => simp [segStepWith, h]
    | (false, ds) :: tl => simp [segStepWith, h]
  · simp [segStepWith, h]

theorem digitSegsWith_length_le (p : Char → Bool) :
    ∀ l : List Char, (digitSegsWith p l).length ≤ l.length := by
  intro l
  induction l with
  | nil => simp [digitSegsWith]
  | cons c rest ih =>
    have e1 : digitSegsWith p (c :: rest) = segStepWith p c (digitSegsWith p rest) := rfl
    rw [e1, List.length_cons]
    exact Nat.le_trans (segStepWith_length_le p c _) (Nat.succ_le_succ ih)

theorem digitSegsWith_of_no_digit (p : Char → Bool) :
    ∀ l : List Char, (∀ c ∈ l, p c = false) →
      digitSegsWith p l = l.map (fun c => (false, [c])) := by
  intro l
  induction l with
  | nil => intro _; rfl
  | cons c rest ih =>
    intro hall
    rw [digitSegsWith_cons_nondigit p rest c (hall c (List.mem_cons_self _ _))]
    rw [ih (fun x hx => hall x (List.mem_cons_of_mem _ hx))]
    rfl

theorem segStepWith_append (p : Char → Bool) (c : Char)
    (A X : List (Bool × List Char)) (hA : A ≠ []) :
    segStepWith p c (A ++ X) = segStepWith p c A ++ X := by
  match A with
  | [] => exact absurd rfl hA
  | (true, ds) :: tl => by_cases h : p c <;> simp [segStepWith, h]
  | (false, ds) :: tl => by_cases h : p c <;> simp [segStepWith, h]

theorem digitSegsWith_digits_post (p : Char → Bool) :
    ∀ (digits post : List Char), digits ≠ [] → digits.all p = true →
      (∀ c, post.head? = some c → p c = false) →
      digitSegsWith p (digits ++ post) = (true, digits) :: digitSegsWith p post := by
  intro digits
  induction digits with
  | nil => intro post hne; exact absurd rfl hne
  | cons e ds ih =>
    intro post _ hall hpost
    have he : p e = true := by
      have := hall
      simp only [List.all_cons, Bool.and_eq_true] at this
      exact this.1
    have hds : ds.all p = true := by
      have := hall
      simp only [List.all_cons, Bool.and_eq_true] at this
      exact this.2
    match ds with
    | [] =>
      have e1 : digitSegsWith p (e :: post) = segStepWith p e (digitSegsWith p post) := rfl
      simp only [List.nil_append, List.cons_append]
      rw [e1]
      match post with
      | [] => simp [digitSegsWith, segStepWith, he]
      | q :: qs =>
        have hq : p q = false := hpost q rfl
        rw [digitSegsWith_cons_nondigit p qs q hq]
        simp [segStepWith, he]
    | d2 :: ds2 =>
      have e2 := ih post (by simp) hds hpost
      have e1 : digitSegsWith p ((e :: d2 :: ds2) ++ post)
          = segStepWith p e (digitSegsWith p ((d2 :: ds2) ++ post)) := rfl
      rw [e1, e2]
      simp [segStepWith, he]

/-- Splitting the segmentation at one maximal digit run: if `digits` is a
non-empty run of `p`-characters, `pre` does not end with one and `post`
does not begin with one, the segmentation of `pre ++ digits ++ post` is the
segmentation of `pre`, then the single segment `(true, digits)`, then the
segmentation of `post`. -/
theorem digitSegsWith_split (p : Char → Bool) :
    ∀ (pre digits post : List Char), digits ≠ [] → digits.all p = true →
      (∀ c, pre.getLast? = some c → p c = false) →
      (∀ c, post.head? = some c → p c = false) →
      digitSegsWith p (pre ++ digits ++ post)
        = digitSegsWith p pre ++ (true, digits) :: digitSegsWith p post := by
  intro pre
  induction pre with
  | nil =>
    intro digits post hne hall _ hpost
    simpa using digitSegsWith_digits_post p digits post hne hall hpost
  | cons c pre2 ih =>
    intro digits post hne hall hpre hpost
    match pre2 with
    | [] =>
      have hc : p c = false := hpre c rfl
      have e1 : digitSegsWith p ([c] ++ digits ++ post)
          = segStepWith p c (digitSegsWith p (digits ++ post)) := rfl
      rw [e1, digitSegsWith_digits_post p digits post hne hall hpost]
      have e3 : digitSegsWith p [c] = [(false, [c])] := by
        simp [digitSegsWith, segStepWith, hc]
      rw [e3]
      simp [segStepWith, hc]
    | c2 :: pre3 =>
      have hpre2 : ∀ x, (c2 :: pre3).getLast? = some x → p x = false := by
        intro x hx
        exact hpre x (by rw [List.getLast?_cons_cons]; exact hx)
      have e2 := ih digits post hne hall hpre2 hpost
      have e1 : digitSegsWith p ((c :: c2 :: pre3) ++ digits ++ post)
          = segStepWith p c (digitSegsWith p ((c2 :: pre3) ++ digits ++ post)) := rfl
      rw [e1, e2,
        segStepWith_append p c _ _ (digitSegsWith_cons_ne_nil p c2 pre3)]
      rfl

theorem applyFormatting_text (d : RunData) (r : Run) :
    (applyFormatting d r).text = r.text := rfl

theorem applyFormatting_rtl (d : RunData) (r : Run) :
    (applyFormatting d r).rtl = some true := rfl

theorem mkScanRun_text (d : RunData) (s : Bool × List Char) :
    (mkScanRun d s).text = segText s := rfl

/-- The texts of the runs `scanRun` emits are exactly the rendered
segments. -/
theorem scanRun_texts (d : RunData) (l : List Char) :
    (scanRun d l).map Run.text = (digitSegs l).map segText := by
  rw [scanRun_eq_segs, List.map_map]
  exact List.map_congr_left (fun s _ => mkScanRun_text d s)

theorem flatten_map_singleton :
    ∀ l : List Char, (l.map (fun c => [c])).flatten = l := by
  intro l
  induction l with
  | nil => rfl
  | cons c rest ih => simp only [List.map_cons, List.flatten_cons, ih]; rfl

/-- Spec-side definition, from the claim's words: the string with one
ornate bracket pair inserted around every maximal digit run and nothing
else added, removed or reordered. -/
def bracketMaximalRuns (l : List Char) : List Char :=
  ((digitSegs l).map segText).flatten

theorem bracketMaximalRuns_of_no_digit (l : List Char)
    (h : ∀ c ∈ l, pyIsDigit c = false) : bracketMaximalRuns l = l := by
  unfold bracketMaximalRuns digitSegs
  rw [digitSegsWith_of_no_digit pyIsDigit l h, List.map_map]
  have : (segText ∘ fun c => ((false, [c]) : Bool × List Char))
      = fun c => [c] := by
    funext c
    simp [segText]
  rw [this, flatten_map_singleton]

/-- `pyIsSpace` and `pyIsDigit` classify disjoint characters: the digit
ranges contain no whitespace. -/
theorem pyIsSpace_not_digit (c : Char) (h : pyIsSpace c = true) :
    pyIsDigit c = false := by
  rw [Bool.eq_false_iff]
  intro hd
  unfold pyIsSpace inRange at h
  unfold pyIsDigit isUnicodeDecimalDigit isDigitTypedNumeral inRange at hd
  simp only [Bool.or_eq_true, Bool.and_eq_true, decide_eq_true_eq] at h hd
  omega

theorem dropWhile_eq_nil_of_all (p : Char → Bool) :
    ∀ l : List Char, (∀ c ∈ l, p c = true) → l.dropWhile p = [] := by
  intro l
  induction l with
  | nil => intro _; rfl
  | cons c rest ih =>
    intro hall
    rw [List.dropWhile_cons_of_pos (hall c (List.mem_cons_self _ _))]
    exact ih (fun x hx => hall x (List.mem_cons_of_mem _ hx))

theorem pyStrip_of_all_space (l : List Char)
    (h : ∀ c ∈ l, pyIsSpace c = true) : pyStrip l = [] := by
  unfold pyStrip
  rw [dropWhile_eq_nil_of_all pyIsSpace l h]
  rfl

/-- Every line `extract_text_from_docx` produces is non-empty. -/
theorem extract_text_from_docx_ne_nil (paras : List Paragraph)
    (l : List Char) (h : l ∈ extract_text_from_docx paras) : l ≠ [] := by
  unfold extract_text_from_docx at h
  rcases List.mem_filterMap.mp h with ⟨p, _, hp⟩
  by_cases he : (pyStrip (paraText p)).isEmpty
  · rw [if_pos he] at hp
    exact absurd hp (by simp)
  · rw [if_neg he] at hp
    have : l.isEmpty = false := by
      cases hp
      exact Bool.not_eq_true _ ▸ Bool.eq_false_iff.mpr he
    simpa [List.isEmpty_iff] using this

theorem create_pdf_line_loopWith_nil (p : Char → Bool)
    (shape : List Char → List Char) (acc : List Char) (bidi : Option (List Char)) :
    create_pdf_line_loopWith p shape [] acc bidi = (acc, bidi) := by
  rw [create_pdf_line_loopWith]

theorem create_pdf_line_loopWith_cons_digit (p : Char → Bool)
    (shape : List Char → List Char) (c : Char) (rest acc : List Char)
    (bidi : Option (List Char)) (h : p c = true) :
    create_pdf_line_loopWith p shape (c :: rest) acc bidi
      = create_pdf_line_loopWith p shape (rest.dropWhile p)
          (acc ++ pdfNumberChunk (c :: rest.takeWhile p))
          (some (shape (acc ++ pdfNumberChunk (c :: rest.takeWhile p)))) := by
  rw [create_pdf_line_loopWith]
  simp [h]

theorem create_pdf_line_loopWith_cons_nondigit (p : Char → Bool)
    (shape : List Char → List Char) (c : Char) (rest acc : List Char)
    (bidi : Option (List Char)) (h : p c = false) :
    create_pdf_line_loopWith p shape (c :: rest) acc bidi
      = create_pdf_line_loopWith p shape rest (acc ++ [c])
          (some (shape (acc ++ [c]))) := by
  rw [create_pdf_line_loopWith]
  simp [h]

/-- Invariant of the per-line loop: on a non-empty remaining input the loop
returns the accumulator extended with the processed rendering of the rest,
and `bidi_text` holds the shape of that entire final `processed_line`
(because lines 203-204 run at the end of every iteration). -/
theorem create_pdf_line_loopWith_inv (p : Char → Bool)
    (shape : List Char → List Char) :
    ∀ (n : Nat) (l : List Char), l.length ≤ n → l ≠ [] →
      ∀ (acc : List Char) (bidi : Option (List Char)),
        create_pdf_line_loopWith p shape l acc bidi
          = (acc ++ create_pdf_processed_lineWith p l,
             some (shape (acc ++ create_pdf_processed_lineWith p l))) := by
  intro n
  induction n with
  | zero =>
    intro l hl hne
    exact absurd (List.length_eq_zero.mp (Nat.le_zero.mp hl)) hne
  | succ n ih =>
    intro l hl hne acc bidi
    match l with
    | [] => exact absurd rfl hne
    | c :: rest =>
      by_cases h : p c
      · rw [create_pdf_line_loopWith_cons_digit p shape c rest acc bidi h]
        rw [create_pdf_processed_lineWith_cons_digit p c rest h]
        match e : rest.dropWhile p with
        | [] =>
          rw [create_pdf_line_loopWith_nil, create_pdf_processed_lineWith_nil]
          simp
        | q :: qs =>
          have hlen : (rest.dropWhile p).length ≤ n :=
            Nat.le_trans (length_dropWhile_le p rest) (Nat.le_of_succ_le_succ hl)
          rw [← e]
          rw [ih (rest.dropWhile p) hlen (by rw [e]; simp)
            (acc ++ pdfNumberChunk (c :: rest.takeWhile p)) _]
          simp [List.append_assoc]
      · rw [create_pdf_line_loopWith_cons_nondigit p shape c rest acc bidi
          (by simpa using h)]
        rw [create_pdf_processed_lineWith_cons_nondigit p c rest (by simpa using h)]
        match e : rest with
        | [] =>
          rw [create_pdf_line_loopWith_nil, create_pdf_processed_lineWith_nil]
        | q :: qs =>
          have hlen : (q :: qs).length ≤ n := by
            simp only [List.length_cons] at hl ⊢
            omega
          rw [ih (q :: qs) hlen (by simp) (acc ++ [c]) _]
          simp [List.append_assoc]

/-- For every non-empty line, the loop leaves `bidi_text` bound to the
shape of the full processed line. -/
theorem create_pdf_line_bidi_eq (shape : List Char → List Char)
    (line : List Char) (h : line ≠ []) :
    create_pdf_line_bidi shape line
      = some (shape (create_pdf_processed_line line)) := by
  unfold create_pdf_line_bidi create_pdf_line_loop
  rw [create_pdf_line_loopWith_inv is_arabic_numeral shape line.length line
    (Nat.le_refl _) h [] none]
  rfl

/-- The cursor update of one iteration of the outer `while i < len(text)`
loop of `center_docx_text.py` (lines 86-127): from position `i`, a digit
character advances the cursor past the maximal digit run starting at `i`
(the inner `while` of lines 91-92); any other character advances it by
one. -/
def scanStep (text : List Char) (i : Nat) : Nat :=
  if pyIsDigit (text.getD i (Char.ofNat 0)) then
    i + ((text.drop i).takeWhile pyIsDigit).length
  else i + 1

/-- Concatenating the texts emitted for a list of captured runs equals the
per-run bracket insertion, run by run. -/
theorem center_digit_concat :
    ∀ runs : List Run,
      ((((runs.map captureRun).map (fun d => scanRun d d.text)).flatten).map
          Run.text).flatten
        = (runs.map (fun r => bracketMaximalRuns r.text)).flatten := by
  intro runs
  induction runs with
  | nil => rfl
  | cons r rs ih =>
    simp only [List.map_cons, List.flatten_cons, List.map_append,
      List.flatten_append]
    rw [ih]
    have : ((scanRun (captureRun r) (captureRun r).text).map Run.text).flatten
        = bracketMaximalRuns r.text := by
      rw [scanRun_texts]
      rfl
    rw [this]

/-! ### Concrete fixtures used by witnesses and counterexamples -/

/-- A captured run datum with no explicit formatting (all attributes
`None`). -/
def defaultData : RunData :=
  { text := [], bold := none, italic := none, underline := none,
    color := none, size := none, name := none }

/-- A captured run datum whose font size is an explicit 0 (a falsy Python
`Length`). -/
def sizeZeroData : RunData :=
  { defaultData with size := some 0 }

/-- U+00B2 SUPERSCRIPT TWO: true for Python `str.isdigit` but not a Unicode
decimal digit (category No, Numeric_Type=Digit). -/
def superTwo : Char := Char.ofNat 0xB2

/-- A paragraph of two unformatted runs with texts "1" and "2": a digit run
split across a run boundary. -/
def par12 : Paragraph :=
  { runs := [freshRun ['1'], freshRun ['2']], alignment := none }

/-- A paragraph of one unformatted run with text "a1". -/
def parA1 : Paragraph :=
  { runs := [freshRun ['a', '1']], alignment := none }

/-- A whitespace-only paragraph. -/
def parSpace : Paragraph :=
  { runs := [freshRun [' ', ' ']], alignment := none }

/-! ### Claims -/

/-- C1, counterexample: for the paragraph made of the two runs "1" and "2",
the concatenated output text is not the paragraph text "12" with one ornate
bracket pair around its (unique, paragraph-wide) maximal digit run - the
code inserts one pair per source run, producing two bracketed groups. -/
theorem C1_counterexample :
    (((center_docx_paragraph par12).runs).map Run.text).flatten
      ≠ bracketMaximalRuns (paraText par12) := by
  rw [center_docx_paragraph_eq_C]
  decide

/-- C1 (amended): for every input paragraph, concatenating the text of all
output runs of the annotator, in output order, equals the concatenation,
over the source runs, of each run's text with one ornate bracket pair
inserted around every maximal digit run of that run and no other character
added, removed, or reordered.  (Maximality is per source run, not per
paragraph: a digit run spanning a run boundary receives one pair per
run.) -/
theorem C1_concat_per_run (p : Paragraph) :
    (((center_docx_paragraph p).runs).map Run.text).flatten
      = (p.runs.map (fun r => bracketMaximalRuns r.text)).flatten := by
  unfold center_docx_paragraph
  by_cases hsp : (paraText p).all pyIsSpace
  · rw [if_pos hsp]
    have hnd : ∀ r ∈ p.runs, ∀ c ∈ r.text, pyIsDigit c = false := by
      intro r hr c hc
      apply pyIsSpace_not_digit
      have hcp : c ∈ paraText p :=
        List.mem_flatten.mpr ⟨r.text, List.mem_map.mpr ⟨r, hr, rfl⟩, hc⟩
      exact List.all_eq_true.mp hsp c hcp
    have he : p.runs.map (fun r => bracketMaximalRuns r.text)
        = p.runs.map Run.text :=
      List.map_congr_left (fun r hr => bracketMaximalRuns_of_no_digit _ (hnd r hr))
    rw [he]
  · rw [if_neg hsp]
    by_cases hdg : (paraText p).any pyIsDigit
    · rw [if_pos hdg]
      show (((((p.runs.map setRtl).map captureRun).map
            (fun d => scanRun d d.text)).flatten).map Run.text).flatten
          = (p.runs.map (fun r => bracketMaximalRuns r.text)).flatten
      rw [center_digit_concat (p.runs.map setRtl), List.map_map]
      rfl
    · rw [if_neg hdg]
      have hnd : ∀ r ∈ p.runs, ∀ c ∈ r.text, pyIsDigit c = false := by
        intro r hr c hc
        have hcp : c ∈ paraText p :=
          List.mem_flatten.mpr ⟨r.text, List.mem_map.mpr ⟨r, hr, rfl⟩, hc⟩
        rcases Bool.eq_false_or_eq_true (pyIsDigit c) with ht | hf
        · exact absurd (List.any_eq_true.mpr ⟨c, hcp, ht⟩) hdg
        · exact hf
      have he : p.runs.map (fun r => bracketMaximalRuns r.text)
          = p.runs.map Run.text :=
        List.map_congr_left
          (fun r hr => bracketMaximalRuns_of_no_digit _ (hnd r hr))
      rw [he]
      show (((p.runs.map setRtl).map Run.text).flatten)
          = (p.runs.map Run.text).flatten
      rw [List.map_map]
      rfl

/-- C2, counterexample: for the digit run "1", the emitted run's text is
not U+FD3E, '1', U+FD3F as the claim orders the brackets - the code's
f-string begins with U+FD3F and ends with U+FD3E. -/
theorem C2_counterexample :
    (scanRun defaultData ['1']).map Run.text ≠ [[ornateFD3E, '1', ornateFD3F]] := by
  rw [scanRun_texts]
  decide

/-- C2 (amended): for every maximal contiguous digit run with digit string
D inside a single source run, the annotator emits exactly one run for it,
whose text is the character U+FD3F, then D, then the character U+FD3E, in
that order (the claim's bracket order reversed), carrying the captured
formatting. -/
theorem C2_bracket_run (d : RunData) (pre digits post : List Char)
    (h1 : digits ≠ []) (h2 : digits.all pyIsDigit = true)
    (h3 : ∀ c, pre.getLast? = some c → pyIsDigit c = false)
    (h4 : ∀ c, post.head? = some c → pyIsDigit c = false) :
    scanRun d (pre ++ digits ++ post)
      = scanRun d pre
        ++ applyFormatting d (freshRun (ornateFD3F :: digits ++ [ornateFD3E]))
          :: scanRun d post := by
  rw [scanRun_eq_segs, scanRun_eq_segs, scanRun_eq_segs]
  unfold digitSegs
  rw [digitSegsWith_split pyIsDigit pre digits post h1 h2 h3 h4]
  rw [List.map_append, List.map_cons]
  rfl

/-- C2, witness: the run "a12b" splits as "a", "12", "b" and the digit run
"12" is emitted as the single bracketed run U+FD3F "12" U+FD3E. -/
theorem C2_witness :
    (['1', '2'] : List Char) ≠ []
    ∧ (['1', '2'] : List Char).all pyIsDigit = true
    ∧ scanRun defaultData (['a'] ++ ['1', '2'] ++ ['b'])
        = scanRun defaultData ['a']
          ++ applyFormatting defaultData
              (freshRun (ornateFD3F :: ['1', '2'] ++ [ornateFD3E]))
            :: scanRun defaultData ['b'] :=
  ⟨by decide, by decide,
    C2_bracket_run defaultData ['a'] ['1', '2'] ['b'] (by decide) (by decide)
      (by
        intro c hc
        have : c = 'a' := by simpa using hc.symm
        subst this
        decide)
      (by
        intro c hc
        have : c = 'b' := by simpa using hc.symm
        subst this
        decide)⟩

/-- C3, counterexample: on the input "1" the two duplicated scans disagree:
`center_docx_text` emits the bracketed group with no padding while
`create_quran_pdf` surrounds it with one space on each side. -/
theorem C3_counterexample :
    create_pdf_processed_line ['1']
      ≠ ((scanRun defaultData ['1']).map Run.text).flatten := by
  rw [create_pdf_processed_line_eq, scanRun_texts]
  decide

/-- C3 (amended): the two duplicated scans compute the same
maximal-digit-run segmentation of the input and agree on every non-digit
segment; they differ only in that `create_quran_pdf` adds one space before
and one space after each bracketed digit group
(`processed_line += f" ...{number}... "`), while `center_docx_text` emits
the bracketed group alone.  In particular the two transformations are equal
on every input containing no digit character. -/
theorem C3_segmentwise (d : RunData) (l : List Char) :
    ((scanRun d l).map Run.text).flatten = ((digitSegs l).map segText).flatten
    ∧ create_pdf_processed_line l = ((digitSegs l).map segTextPdf).flatten
    ∧ (∀ s ∈ digitSegs l,
        (s.1 = true → segTextPdf s = ' ' :: segText s ++ [' '])
        ∧ (s.1 = false → segTextPdf s = segText s))
    ∧ (l.all (fun c => !pyIsDigit c) = true →
        create_pdf_processed_line l = ((scanRun d l).map Run.text).flatten) := by
  have hall : l.all (fun c => !pyIsDigit c) = true →
      ∀ c ∈ l, pyIsDigit c = false := by
    intro h c hc
    have := List.all_eq_true.mp h c hc
    simpa using this
  refine ⟨by rw [scanRun_texts], create_pdf_processed_line_eq l, ?_, ?_⟩
  · intro s _
    obtain ⟨b, t⟩ := s
    constructor
    · intro hb
      simp only at hb
      subst hb
      rfl
    · intro hb
      simp only at hb
      subst hb
      rfl
  · intro h
    have hnd := hall h
    rw [scanRun_texts]
    show create_pdf_processed_line l = bracketMaximalRuns l
    rw [create_pdf_processed_line_eq, bracketMaximalRuns_of_no_digit l hnd]
    unfold digitSegs
    rw [digitSegsWith_of_no_digit pyIsDigit l hnd, List.map_map]
    have he : (segTextPdf ∘ fun c => ((false, [c]) : Bool × List Char))
        = fun c => [c] := by
      funext c
      simp [segTextPdf]
    rw [he, flatten_map_singleton]

/-- C3, witness: on the digit-free input "ab" the two scans produce the
same string. -/
theorem C3_witness :
    create_pdf_processed_line ['a', 'b']
      = ((scanRun defaultData ['a', 'b']).map Run.text).flatten :=
  (C3_segmentwise defaultData ['a', 'b']).2.2.2 (by decide)

/-- C4, counterexample: U+00B2 (superscript two) is not a Unicode decimal
digit, yet the scan does not emit it outside the brackets unchanged - it is
wrapped in an ornate bracket pair, because Python's `str.isdigit` also
accepts Numeric_Type=Digit characters. -/
theorem C4_counterexample :
    (scanRun defaultData [superTwo]).map Run.text = [bracketText [superTwo]]
      ∧ isUnicodeDecimalDigit superTwo = false := by
  constructor
  · rw [scanRun_texts]
    decide
  · decide

/-- C4 (amended): every run the scan emits is either one ornate-bracketed
non-empty run of characters satisfying Python's `str.isdigit`
(Numeric_Type Decimal or Digit - a strict superset of the Unicode decimal
digits that also contains, e.g., superscript digits), or a single character
not satisfying `str.isdigit`, emitted unchanged; and every Unicode decimal
digit does satisfy `str.isdigit`. -/
theorem C4_digit_class (d : RunData) (l : List Char) :
    (∀ r ∈ scanRun d l,
        (∃ ds, ds ≠ [] ∧ ds.all pyIsDigit = true ∧ r.text = bracketText ds)
        ∨ (∃ c, pyIsDigit c = false ∧ r.text = [c]))
    ∧ (∀ c, isUnicodeDecimalDigit c = true → pyIsDigit c = true) := by
  constructor
  · intro r hr
    rw [scanRun_eq_segs] at hr
    rcases List.mem_map.mp hr with ⟨s, hs, rfl⟩
    have hwf := digitSegsWith_wf pyIsDigit l s hs
    obtain ⟨b, t⟩ := s
    match b with
    | true =>
      left
      obtain ⟨hne, hta⟩ := hwf.1 rfl
      exact ⟨t, hne, hta, rfl⟩
    | false =>
      right
      obtain ⟨c, ht, hc⟩ := hwf.2 rfl
      refine ⟨c, hc, ?_⟩
      rw [mkScanRun_text]
      have ht2 : t = [c] := ht
      simp [segText, ht2]
  · intro c h
    unfold pyIsDigit
    rw [h]
    rfl

/-- C4, witness: the non-digit 'a' is emitted as a single unchanged
character run, and '5' is recognized as a digit. -/
theorem C4_witness :
    ((∃ ds, ds ≠ [] ∧ ds.all pyIsDigit = true
        ∧ (applyFormatting defaultData (freshRun ['a'])).text = bracketText ds)
      ∨ (∃ c, pyIsDigit c = false
        ∧ (applyFormatting defaultData (freshRun ['a'])).text = [c]))
    ∧ pyIsDigit '5' = true :=
  ⟨(C4_digit_class defaultData ['a']).1 _ (by rw [scanRun_eq_segs]; decide),
   (C4_digit_class defaultData []).2 '5' (by decide)⟩

/-- C5: the annotator scans each source run independently and never merges
a digit run that is split across a run boundary: in the digit-processing
branch the output is the concatenation of the per-run scans, and the
paragraph with runs "1", "2" yields the two separate bracketed runs
U+FD3F "1" U+FD3E and U+FD3F "2" U+FD3E, not one bracketed "12". -/
theorem C5_no_cross_run_merge :
    (∀ p : Paragraph, (paraText p).all pyIsSpace = false →
        (paraText p).any pyIsDigit = true →
        (center_docx_paragraph p).runs
          = (((p.runs.map setRtl).map captureRun).map
              (fun d => scanRun d d.text)).flatten)
    ∧ (center_docx_paragraph par12).runs.map Run.text
        = [bracketText ['1'], bracketText ['2']] := by
  constructor
  · intro p h1 h2
    unfold center_docx_paragraph
    rw [if_neg (by simp [h1]), if_pos h2]
  · rw [center_docx_paragraph_eq_C]
    decide

/-- C5, witness: the paragraph with runs "1", "2" is digit-bearing and
non-blank, and its annotation is the concatenation of the two independent
per-run scans. -/
theorem C5_witness :
    (paraText par12).all pyIsSpace = false
    ∧ (paraText par12).any pyIsDigit = true
    ∧ (center_docx_paragraph par12).runs
        = (((par12.runs.map setRtl).map captureRun).map
            (fun d => scanRun d d.text)).flatten :=
  ⟨by decide, by decide, C5_no_cross_run_merge.1 par12 (by decide) (by decide)⟩

/-- C6: every run of a processed non-empty paragraph - digit-bearing or
not, whatever its source directionality - has its `font.rtl` flag forced to
`True`. -/
theorem C6_all_rtl (p : Paragraph)
    (h : (paraText p).all pyIsSpace = false) :
    ∀ r ∈ (center_docx_paragraph p).runs, r.rtl = some true := by
  intro r hr
  unfold center_docx_paragraph at hr
  rw [if_neg (by simp [h])] at hr
  by_cases hd : (paraText p).any pyIsDigit
  · rw [if_pos hd] at hr
    rcases List.mem_flatten.mp hr with ⟨sub, hsub, hrsub⟩
    rcases List.mem_map.mp hsub with ⟨d, _, rfl⟩
    rw [scanRun_eq_segs] at hrsub
    rcases List.mem_map.mp hrsub with ⟨s, _, rfl⟩
    exact applyFormatting_rtl d _
  · rw [if_neg hd] at hr
    rcases List.mem_map.mp hr with ⟨r0, _, rfl⟩
    rfl

/-- C6, witness: in the annotated "a1" paragraph every run is
right-to-left. -/
theorem C6_witness :
    (paraText parA1).all pyIsSpace = false
    ∧ ∀ r ∈ (center_docx_paragraph parA1).runs, r.rtl = some true :=
  ⟨by decide, C6_all_rtl parA1 (by decide)⟩

/-- C7, counterexample: a source run carrying the explicit font size 0 (a
falsy Python `Length`) is not preserved - the guard
`if run_data['size']:` skips the assignment and the emitted run's size is
left unset rather than equal to the source's. -/
theorem C7_counterexample :
    (scanRun sizeZeroData ['a']).map Run.size ≠ [sizeZeroData.size] := by
  rw [scanRun_eq_segs]
  decide

/-- C7 (amended): every emitted run's `bold`, `italic`, `underline` and
`color` equal the source run's; its `size` and `name` equal the source
run's whenever the source value is not the falsy 0 (resp. not the falsy
empty string), those being skipped by the truthiness guards
`if run_data['size']:` / `if run_data['name']:` and left unset. -/
theorem C7_formatting_preserved (d : RunData) (l : List Char) :
    ∀ r ∈ scanRun d l,
      r.bold = d.bold ∧ r.italic = d.italic ∧ r.underline = d.underline
      ∧ r.color = d.color
      ∧ (d.size ≠ some 0 → r.size = d.size)
      ∧ (d.name ≠ some "" → r.name = d.name) := by
  intro r hr
  rw [scanRun_eq_segs] at hr
  rcases List.mem_map.mp hr with ⟨s, _, rfl⟩
  refine ⟨rfl, rfl, rfl, ?_, ?_, ?_⟩
  · show (applyFormatting d (freshRun (segText s))).color = d.color
    unfold applyFormatting freshRun
    cases d.color <;> rfl
  · intro hsz
    show (applyFormatting d (freshRun (segText s))).size = d.size
    unfold applyFormatting freshRun
    cases e : d.size with
    | none => rfl
    | some v =>
      have hv : v ≠ 0 := by
        intro h0
        subst h0
        exact hsz e
      simp [hv]
  · intro hnm
    show (applyFormatting d (freshRun (segText s))).name = d.name
    unfold applyFormatting freshRun
    cases e : d.name with
    | none => rfl
    | some v =>
      have hv : v ≠ "" := by
        intro h0
        subst h0
        exact hnm e
      simp [hv]

/-- C7, witness: the bracketed run emitted for "1" from an unformatted
source run carries that run's (absent) formatting unchanged. -/
theorem C7_witness :
    (applyFormatting defaultData (freshRun (bracketText ['1']))).bold = defaultData.bold
    ∧ (applyFormatting defaultData (freshRun (bracketText ['1']))).italic = defaultData.italic
    ∧ (applyFormatting defaultData (freshRun (bracketText ['1']))).underline = defaultData.underline
    ∧ (applyFormatting defaultData (freshRun (bracketText ['1']))).color = defaultData.color
    ∧ (defaultData.size ≠ some 0 →
        (applyFormatting defaultData (freshRun (bracketText ['1']))).size = defaultData.size)
    ∧ (defaultData.name ≠ some "" →
        (applyFormatting defaultData (freshRun (bracketText ['1']))).name = defaultData.name) :=
  C7_formatting_preserved defaultData ['1'] _ (by rw [scanRun_eq_segs]; decide)

/-- C8: a paragraph whose text is empty or whitespace-only is left
completely unchanged by the annotator (same runs, same alignment, no
directionality change), and `extract_text_from_docx` excludes it. -/
theorem C8_whitespace_identity (p : Paragraph)
    (h : (paraText p).all pyIsSpace = true) :
    center_docx_paragraph p = p ∧ extract_text_from_docx [p] = [] := by
  constructor
  · unfold center_docx_paragraph
    rw [if_pos h]
  · unfold extract_text_from_docx
    have hs : pyStrip (paraText p) = [] :=
      pyStrip_of_all_space _ (List.all_eq_true.mp h)
    simp [hs]

/-- C8, witness: the two-space paragraph passes through unchanged and is
excluded from extraction. -/
theorem C8_witness :
    (paraText parSpace).all pyIsSpace = true
    ∧ center_docx_paragraph parSpace = parSpace
    ∧ extract_text_from_docx [parSpace] = [] :=
  ⟨by decide, (C8_whitespace_identity parSpace (by decide)).1,
    (C8_whitespace_identity parSpace (by decide)).2⟩

/-- C9: the per-run scan is total and makes strict progress: at every valid
cursor position the next position is strictly larger (by the length of the
maximal digit run for a digit, by one otherwise) and never exceeds the text
length, and the scan emits at most one run per input character. -/
theorem C9_progress (text : List Char) (i : Nat) (h : i < text.length)
    (d : RunData) :
    i < scanStep text i ∧ scanStep text i ≤ text.length
    ∧ (scanRun d text).length ≤ text.length := by
  have hcount : (scanRun d text).length ≤ text.length := by
    rw [scanRun_eq_segs, List.length_map]
    exact digitSegsWith_length_le pyIsDigit text
  unfold scanStep
  by_cases hd : pyIsDigit (text.getD i (Char.ofNat 0))
  · rw [if_pos hd]
    have htw : ((text.drop i).takeWhile pyIsDigit).length ≤ (text.drop i).length :=
      length_takeWhile_le pyIsDigit _
    have hlen : (text.drop i).length = text.length - i := List.length_drop i text
    have hpos : 1 ≤ ((text.drop i).takeWhile pyIsDigit).length := by
      have hgd : text.getD i (Char.ofNat 0) = text[i] := by
        rw [List.getD_eq_getElem?_getD, List.getElem?_eq_getElem h]
        rfl
      rw [List.drop_eq_getElem_cons h,
        List.takeWhile_cons_of_pos (by rw [← hgd]; exact hd)]
      simp
    exact ⟨by omega, by omega, hcount⟩
  · rw [if_neg hd]
    exact ⟨Nat.lt_succ_self i, h, hcount⟩

/-- C9, witness: on "a12" from position 0 the cursor advances to 1, and the
scan emits at most three runs. -/
theorem C9_witness :
    0 < (['a', '1', '2'] : List Char).length
    ∧ (0 < scanStep ['a', '1', '2'] 0
        ∧ scanStep ['a', '1', '2'] 0 ≤ (['a', '1', '2'] : List Char).length
        ∧ (scanRun defaultData ['a', '1', '2']).length
            ≤ (['a', '1', '2'] : List Char).length) :=
  ⟨by decide, C9_progress ['a', '1', '2'] 0 (by decide) defaultData⟩

/-- C10, counterexample: the all-digit line "123" does not make the
per-line processing fail with an unbound `bidi_text`: the reshape/bidi
assignments of lines 203-204 are indented at the level of the `if` inside
the `while` body, not inside the non-digit branch, so they execute on every
iteration and `bidi_text` is assigned. -/
theorem C10_counterexample :
    create_pdf_line_bidi (fun s => s) ['1', '2', '3'] ≠ none := by
  rw [create_pdf_line_bidi_eq (fun s => s) ['1', '2', '3'] (by decide)]
  simp

/-- C10 (amended): the reshape/bidi step runs at the end of every iteration
of the per-line scan, so for every non-empty line - in particular for every
line an extraction produces, all-digit lines included - `bidi_text` is
bound when the `Paragraph` is built, and it holds the shape of the complete
processed line; no unbound-local failure occurs (the per-iteration
reshaping is merely redundant work). -/
theorem C10_line_always_bound :
    (∀ (shape : List Char → List Char) (line : List Char), line ≠ [] →
        create_pdf_line_bidi shape line
          = some (shape (create_pdf_processed_line line)))
    ∧ ∀ (paras : List Paragraph) (l : List Char),
        l ∈ extract_text_from_docx paras → l ≠ [] :=
  ⟨fun shape line h => create_pdf_line_bidi_eq shape line h,
   extract_text_from_docx_ne_nil⟩

/-- C10, witness: the all-digit line "12" is processed successfully and its
`bidi_text` is the shape of the processed line. -/
theorem C10_witness :
    (['1', '2'] : List Char) ≠ []
    ∧ create_pdf_line_bidi (fun s => s) ['1', '2']
        = some (create_pdf_processed_line ['1', '2']) :=
  ⟨by decide, C10_line_always_bound.1 (fun s => s) ['1', '2'] (by decide)⟩

end QuranReader
